import Mathlib

/-!
Quash shell: tokenizer, command parser, echo and the foreground watchdog.

A shallow embedding of `src/shell.c`.  C strings are `String`s, the `char *arguments[128]`
array is a map from slot index to an optional string (`none` is the NULL pointer), and every
loop of the source is a recursive function that carries the loop variable.
-/

namespace Quash

/-! ## Constants and the argument array -/

/-- Capacity of the argument array: `#define MAX_COMMAND_LINE_ARGS 128`. -/
def MAX_COMMAND_LINE_ARGS : Nat := 128

/-- The delimiter set `char delimiters[] = " \t\r\n"`: space, tab, carriage return, newline. -/
def delimiters : List Char := [Char.ofNat 32, Char.ofNat 9, Char.ofNat 13, Char.ofNat 10]

/-- Membership of a character in `delimiters`. -/
def isDelim (c : Char) : Bool := decide (c ∈ delimiters)

/-- Contents of `char *arguments[]`, by slot index; `none` is the NULL pointer.  Only the slots
below `MAX_COMMAND_LINE_ARGS` belong to the array. -/
abbrev Slots := Nat → Option String

/-- The assignment `arguments[i] = v`. -/
def setSlot (a : Slots) (i : Nat) (v : Option String) : Slots :=
  fun j => if j = i then v else a j

/-- A read of `arguments[i]` that respects the array bounds: `none` when `i` lies outside the
`MAX_COMMAND_LINE_ARGS` slots, otherwise the pointer stored in the slot. -/
def readSlot (a : Slots) (i : Nat) : Option (Option String) :=
  if i < MAX_COMMAND_LINE_ARGS then some (a i) else none

/-! ## Tokenizer (`tokenize_and_substitute`, lines 45-67) -/

/-- One call of `strtok` on the unread part `s` of the buffer.  Leading delimiters are skipped;
at the end of the buffer the call returns NULL (`none`); otherwise the token extends to the next
delimiter or to the end of the buffer, and the saved position is put behind that delimiter. -/
def strtok (s : List Char) : Option (List Char × List Char) :=
  match s.dropWhile isDelim with
  | [] => none
  | c :: cs =>
    some ((c :: cs).takeWhile (fun x => !isDelim x),
          ((c :: cs).dropWhile (fun x => !isDelim x)).tail)

/-- Lines 50-61: the string stored for one token.  A token whose first character is the dollar
sign is replaced by `getenv (token + 1)`, or by the empty string when that is NULL. -/
def substitute (getenv : String → Option String) (token : List Char) : String :=
  if token.head? = some '$' then
    match getenv (String.mk token.tail) with
    | some var_value => var_value
    | none => ""
  else String.mk token

/-- The `while (token != NULL && arg_count < MAX_COMMAND_LINE_ARGS - 1)` loop of lines 49-64
followed by `arguments[arg_count] = NULL; return arg_count;`.  `token` is the result of the
latest `strtok` call together with the unread rest of the buffer.  The first argument bounds the
number of iterations. -/
def tokLoop (getenv : String → Option String) :
    Nat → Option (List Char × List Char) → Nat → Slots → Nat × Slots
  | 0, _, arg_count, arguments => (arg_count, setSlot arguments arg_count none)
  | fuel + 1, token, arg_count, arguments =>
    match token with
    | none => (arg_count, setSlot arguments arg_count none)
    | some (tok, rest) =>
      if arg_count < MAX_COMMAND_LINE_ARGS - 1 then
        tokLoop getenv fuel (strtok rest) (arg_count + 1)
          (setSlot arguments arg_count (some (substitute getenv tok)))
      else (arg_count, setSlot arguments arg_count none)

/-- The function `tokenize_and_substitute (command_line, arguments)`: returns `arg_count` and the
array after the call.  `arguments` is the array before the call (its old contents stay in the
slots the call does not write). -/
def tokenize_and_substitute (getenv : String → Option String) (command_line : String)
    (arguments : Slots) : Nat × Slots :=
  tokLoop getenv MAX_COMMAND_LINE_ARGS (strtok command_line.data) 0 arguments

/-! ### The tokenizer contract in the words of the specification -/

/-- Position `i` of `l` starts a maximal run of non-delimiter characters: the character at `i`
is not a delimiter and `i` is the first position or the character before it is a delimiter. -/
def runStartsAt (l : List Char) (i : Nat) : Bool :=
  (l[i]?).any (fun c => !isDelim c) && (i == 0 || (l[i - 1]?).any isDelim)

/-- The maximal run that starts at position `i`: the characters from `i` up to the next
delimiter or the end of the line. -/
def runAt (l : List Char) (i : Nat) : List Char :=
  (l.drop i).takeWhile (fun c => !isDelim c)

/-- The maximal non-empty runs of non-delimiter characters of a line, from left to right. -/
def specRuns (l : List Char) : List (List Char) :=
  ((List.range l.length).filter (runStartsAt l)).map (runAt l)

/-- The argument the specification assigns to a run: the run itself when it does not begin with
the dollar sign, else the value of the variable named after the dollar sign, or the empty string
when that variable is unset. -/
def specArg (getenv : String → Option String) (run : List Char) : String :=
  match run with
  | [] => ""
  | c :: name =>
    if c = '$' then (getenv (String.mk name)).getD "" else String.mk (c :: name)

/-! ## Redirection parsing (lines 129-150) -/

/-- Variables of the redirection loop, together with the record `reads` of the indices at which
`arguments` has been read by the loop condition and by the look-ahead, in order, and the flag
`overrun`, set once the loop has read `arguments` at an index outside the array. -/
structure RedirState where
  arguments : Slots
  input_file : Option String
  output_file : Option String
  exec_arg_count : Nat
  reads : List Nat
  overrun : Bool

/-- The loop `for (int i = 0; arguments[i] != NULL; i++)` of lines 134-150, entered with loop
variable `i`.  A matching operator with a following token stores the path, writes NULL over the
operator, sets `exec_arg_count = i` and then `i = MAX_COMMAND_LINE_ARGS`; there is no `break`,
so the increment of the `for` statement makes that `MAX_COMMAND_LINE_ARGS + 1` and the condition
is evaluated again at that index.  A read at an index outside the array has no defined result in
C: the loop is followed up to that read, which is recorded in `reads` and raises `overrun`; the
other fields are the values of the variables at the moment of the read, and nothing is said about
the execution after it.  The first argument bounds the number of iterations. -/
def redirLoop : Nat → Nat → RedirState → RedirState
  | 0, _, st => st
  | fuel + 1, i, st =>
    match readSlot st.arguments i with
    | none => { st with reads := st.reads ++ [i], overrun := true }
    | some none => { st with reads := st.reads ++ [i] }
    | some (some tok) =>
      if tok = "<" then
        match readSlot st.arguments (i + 1) with
        | none => { st with reads := st.reads ++ [i, i + 1], overrun := true }
        | some none => redirLoop fuel (i + 1) { st with reads := st.reads ++ [i, i + 1] }
        | some (some path) =>
          redirLoop fuel (MAX_COMMAND_LINE_ARGS + 1)
            { arguments := setSlot st.arguments i none
              input_file := some path
              output_file := st.output_file
              exec_arg_count := i
              reads := st.reads ++ [i, i + 1]
              overrun := st.overrun }
      else if tok = ">" then
        match readSlot st.arguments (i + 1) with
        | none => { st with reads := st.reads ++ [i, i + 1], overrun := true }
        | some none => redirLoop fuel (i + 1) { st with reads := st.reads ++ [i, i + 1] }
        | some (some path) =>
          redirLoop fuel (MAX_COMMAND_LINE_ARGS + 1)
            { arguments := setSlot st.arguments i none
              input_file := st.input_file
              output_file := some path
              exec_arg_count := i
              reads := st.reads ++ [i, i + 1]
              overrun := st.overrun }
      else redirLoop fuel (i + 1) { st with reads := st.reads ++ [i] }

/-- Lines 130-150: `input_file = NULL`, `output_file = NULL`, `exec_arg_count = arg_count`, then
the loop from `i = 0`.  When the result has `overrun` set, its fields are the values at the read
outside the array and the scan has not come to a defined end. -/
def redirScan (arg_count : Nat) (arguments : Slots) : RedirState :=
  redirLoop (MAX_COMMAND_LINE_ARGS + 2) 0
    { arguments := arguments
      input_file := none
      output_file := none
      exec_arg_count := arg_count
      reads := []
      overrun := false }

/-! ## Pipe parsing (lines 152-186) -/

/-- The loop of lines 159-164 entered with loop variable `i`: the index of the first slot before
the NULL sentinel that holds the pipe token, `none` for `pipe_pos == -1`. -/
def findPipe : Nat → Nat → Slots → Option Nat
  | 0, _, _ => none
  | fuel + 1, i, arguments =>
    match arguments i with
    | none => none
    | some tok => if tok = "|" then some i else findPipe fuel (i + 1) arguments

/-- Lines 154 and 170-173: `cmd1_args` starts all NULL and receives slots `0 .. pipe_pos - 1`. -/
def copyCmd1 (arguments : Slots) (pipe_pos : Nat) : Slots :=
  fun i => if i < pipe_pos then arguments i else none

/-- Lines 176-180: the loop `for (int i = pipe_pos + 1; arguments[i] != NULL; i++)` that fills
`cmd2_args`, entered with loop variable `i` and counter `cmd2_count`, followed by
`cmd2_args[cmd2_count] = NULL`. -/
def copyCmd2 : Nat → Nat → Nat → Slots → Slots → Slots
  | 0, _, cmd2_count, _, cmd2_args => setSlot cmd2_args cmd2_count none
  | fuel + 1, i, cmd2_count, arguments, cmd2_args =>
    match arguments i with
    | none => setSlot cmd2_args cmd2_count none
    | some tok =>
      copyCmd2 fuel (i + 1) (cmd2_count + 1) arguments (setSlot cmd2_args cmd2_count (some tok))

/-- The strings of a NULL-terminated vector from slot `i` on, as `execvp` reads them. -/
def argvFrom : Nat → Nat → Slots → List String
  | 0, _, _ => []
  | fuel + 1, i, a =>
    match a i with
    | none => []
    | some s => s :: argvFrom fuel (i + 1) a

/-- The argument vector `execvp` receives when it is passed the array `a`: the strings before the
first NULL slot.  It is empty exactly when the first element is NULL. -/
def argv (a : Slots) : List String := argvFrom MAX_COMMAND_LINE_ARGS 0 a

/-! ## The echo built-in (lines 277-282) -/

/-- The loop `for (int i = 1; arguments[i] != NULL && arguments[i][0] != 0; i++)` of line 278,
entered with loop variable `i`: the text its `printf` calls write. -/
def echoLoop : Nat → Nat → Slots → String
  | 0, _, _ => ""
  | fuel + 1, i, arguments =>
    match arguments i with
    | none => ""
    | some arg =>
      if arg = "" then ""
      else arg ++ (if (arguments (i + 1)).isSome then " " else "") ++ echoLoop fuel (i + 1) arguments

/-- Lines 278-281: the text the echo built-in writes to the standard output of the shell. -/
def echoText (arguments : Slots) : String :=
  echoLoop MAX_COMMAND_LINE_ARGS 1 arguments ++ "\n"

/-! ## One iteration of the command loop (lines 123-408) -/

/-- What the shell does with one line.  The built-ins run inside the shell process; `echo` carries
the text printed on the standard output of the shell.  `pipeline` is the entry into the pipe
execution logic of lines 188-255 with the two stage vectors; `external` is the entry into
`fork` of line 334 with the vector passed to `execvp`, the two redirection paths the child opens
and the background flag.  `nullCommand` is the call `strcmp (arguments[0], "cd")` of line 260
made with `arguments[0] == NULL`.  `undefined` stands for a line whose redirection scan has read
outside the array: the execution has no defined continuation, and no effect of the line (no
output, no file, no process) is asserted. -/
inductive Outcome where
  | undefined
  | ignored
  | pipeError
  | pipeline (cmd1_args cmd2_args : List String)
  | nullCommand
  | cd (dir : Option String)
  | pwd
  | echo (text : String)
  | exit
  | env (name : Option String)
  | setenv (assignment : Option String)
  | external (args : List String) (input_file output_file : Option String)
      (is_background : Bool)
  deriving DecidableEq

/-- Lines 258-408 (no pipe found): built-in dispatch on `arguments[0]`, else the background check
of lines 327-331 and the launch of the external command. -/
def dispatch (r : RedirState) : Outcome :=
  match r.arguments 0 with
  | none => Outcome.nullCommand
  | some cmd =>
    if cmd = "cd" then Outcome.cd (r.arguments 1)
    else if cmd = "pwd" then Outcome.pwd
    else if cmd = "echo" then Outcome.echo (echoText r.arguments)
    else if cmd = "exit" ∨ cmd = "quit" then Outcome.exit
    else if cmd = "env" then Outcome.env (r.arguments 1)
    else if cmd = "setenv" then Outcome.setenv (r.arguments 1)
    else
      if 0 < r.exec_arg_count ∧ r.arguments (r.exec_arg_count - 1) = some "&" then
        Outcome.external (argv (setSlot r.arguments (r.exec_arg_count - 1) none))
          r.input_file r.output_file true
      else
        Outcome.external (argv r.arguments) r.input_file r.output_file false

/-- Lines 125-408: the body of the command loop after tokenization, for the returned
`arg_count` and the filled array.  A redirection scan that has read outside the array ends the
defined part of the execution; otherwise pipe parsing and dispatch follow. -/
def handleLine (arg_count : Nat) (arguments : Slots) : Outcome :=
  if arg_count = 0 ∨ arguments 0 = some "" then Outcome.ignored
  else
    let r := redirScan arg_count arguments
    if r.overrun then Outcome.undefined
    else
      match findPipe MAX_COMMAND_LINE_ARGS 0 r.arguments with
      | some pipe_pos =>
        let cmd1_args := copyCmd1 r.arguments pipe_pos
        let cmd2_args :=
          copyCmd2 MAX_COMMAND_LINE_ARGS (pipe_pos + 1) 0 r.arguments (fun _ => none)
        if cmd1_args 0 = none ∨ cmd2_args 0 = none then Outcome.pipeError
        else Outcome.pipeline (argv cmd1_args) (argv cmd2_args)
      | none => dispatch r

/-- Lines 123-408: tokenization of the line into the array, then the loop body. -/
def processLine (getenv : String → Option String) (command_line : String)
    (arguments : Slots) : Outcome :=
  handleLine (tokenize_and_substitute getenv command_line arguments).1
    (tokenize_and_substitute getenv command_line arguments).2

/-- The slots of `a` from index `i` on hold the strings of `suf` followed by NULL. -/
def HoldsFrom (a : Slots) (i : Nat) (suf : List String) : Prop :=
  ∀ k, k ≤ suf.length → a (i + k) = suf[k]?

/-- The array `a` holds the NULL-terminated vector `ts` from slot 0 on, and the sentinel lies
inside the array.  This is the state `tokenize_and_substitute` leaves behind; the slots behind the
sentinel are arbitrary. -/
def Holds (a : Slots) (ts : List String) : Prop :=
  ts.length < MAX_COMMAND_LINE_ARGS ∧ HoldsFrom a 0 ts

/-- An array that holds the vector `ts` and NULL everywhere else. -/
def ofList (ts : List String) : Slots := fun i => ts[i]?

/-- The command names the dispatch of lines 260-303 compares `arguments[0]` with. -/
def isBuiltin (cmd : String) : Prop :=
  cmd = "cd" ∨ cmd = "pwd" ∨ cmd = "echo" ∨ cmd = "exit" ∨ cmd = "quit" ∨ cmd = "env" ∨
    cmd = "setenv"

instance decIsBuiltin : DecidablePred isBuiltin := by
  intro cmd
  unfold isBuiltin
  infer_instance

/-! ## Foreground watchdog (lines 19-43 and 380-407) -/

/-- The state the watchdog works with: the global `fg_pid`, whether a countdown started by
`alarm (10)` is pending (neither expired nor cancelled), and the record of the process ids the
handler has passed to `kill`, in order. -/
structure Watchdog where
  fg_pid : Int
  pending : Bool
  kill_calls : List Int

/-- State at shell start: `volatile pid_t fg_pid = -1`, no `alarm` call made yet. -/
def Watchdog.init : Watchdog :=
  { fg_pid := -1, pending := false, kill_calls := [] }

/-- The handler `sigalrm_handler` of lines 29-43: `kill (fg_pid, SIGKILL)` when `fg_pid > 0`,
then `fg_pid = -1`. -/
def sigalrm_handler (w : Watchdog) : Watchdog :=
  { fg_pid := -1
    pending := w.pending
    kill_calls := if w.fg_pid > 0 then w.kill_calls ++ [w.fg_pid] else w.kill_calls }

/-- The statements of the shell process that involve the watchdog (lines 384-401). -/
inductive Stmt where
  | set_fg_pid (pid : Int)
  | alarm (seconds : Nat)
  | waitpid (pid : Int)
  | reset_fg_pid
  deriving DecidableEq

/-- Effect of one statement: `fg_pid = pid`; `alarm (n)` starts a countdown for `n > 0` and
cancels a pending one for `n = 0`; the `waitpid` loop leaves the watchdog state alone;
`fg_pid = -1`. -/
def Stmt.exec : Stmt → Watchdog → Watchdog
  | Stmt.set_fg_pid pid, w => { w with fg_pid := pid }
  | Stmt.alarm seconds, w => { w with pending := decide (seconds ≠ 0) }
  | Stmt.waitpid _, w => w
  | Stmt.reset_fg_pid, w => { w with fg_pid := -1 }

/-- The watchdog statements the shell process executes while it handles a line with outcome `o`,
where `pid` is the value `fork` returned for the single external command (lines 334-407):
nothing after a failed fork (`pid < 0`), nothing in the child (`pid == 0`, which goes on to
`execvp` or `exit`), lines 384-401 in the parent of a command that is not background, nothing for
a background command.  Built-ins and pipelines contain no such statement. -/
def watchdogStmts (o : Outcome) (pid : Int) : List Stmt :=
  match o with
  | Outcome.external _ _ _ is_background =>
    if pid < 0 then []
    else if pid = 0 then []
    else if is_background then []
    else [Stmt.set_fg_pid pid, Stmt.alarm 10, Stmt.waitpid pid, Stmt.alarm 0, Stmt.reset_fg_pid]
  | _ => []

/-- What happens to the watchdog state: a statement of the shell, or the expiry of the
countdown. -/
inductive Event where
  | stmt (s : Stmt)
  | expiry
  deriving DecidableEq

/-- Effect of one event.  An expiry is delivered only while a countdown is pending; it ends the
countdown and runs the handler. -/
def Event.apply : Event → Watchdog → Watchdog
  | Event.stmt s, w => s.exec w
  | Event.expiry, w => if w.pending then sigalrm_handler { w with pending := false } else w

/-- The state after a sequence of events. -/
def runEvents (w : Watchdog) (evs : List Event) : Watchdog :=
  evs.foldl (fun w e => e.apply w) w

/-- The statements among a sequence of events, in order. -/
def stmtsOf : List Event → List Stmt
  | [] => []
  | Event.stmt s :: evs => s :: stmtsOf evs
  | Event.expiry :: evs => stmtsOf evs

/-- The handling of one line as the watchdog sees it: the outcome of the line, the value
returned by `fork`, and the events in the order they happen. -/
structure LineRun where
  outcome : Outcome
  pid : Int
  events : List Event

/-- The events of a line are its watchdog statements in program order, with countdown expiries
at arbitrary points in between. -/
def LineRun.valid (l : LineRun) : Prop :=
  stmtsOf l.events = watchdogStmts l.outcome l.pid

/-- The watchdog state when the shell is back at the prompt after the given lines. -/
def runLines (w : Watchdog) (ls : List LineRun) : Watchdog :=
  ls.foldl (fun w l => runEvents w l.events) w

/-- Idle: no foreground job tracked and no countdown pending. -/
def Watchdog.idle (w : Watchdog) : Prop :=
  w.fg_pid = -1 ∧ w.pending = false

/-- The line launched a single external command in the foreground and `fork` succeeded. -/
def LineRun.foreground (l : LineRun) : Prop :=
  0 < l.pid ∧ ∃ args input_file output_file,
    l.outcome = Outcome.external args input_file output_file false

/-! ## Auxiliary definitions used in the proofs -/

/-- Runs of `l` when the character before `l` is a delimiter (`p = true`) or is not. -/
def runsAux : Bool → List Char → List (List Char)
  | _, [] => []
  | p, x :: l =>
    if !isDelim x && p then (x :: l).takeWhile (fun c => !isDelim c) :: runsAux (isDelim x) l
    else runsAux (isDelim x) l

/-- Run start test relative to a given status of the preceding character. -/
def startAt (p : Bool) (l : List Char) (i : Nat) : Bool :=
  (l[i]?).any (fun c => !isDelim c) && (if i = 0 then p else (l[i - 1]?).any isDelim)

/-- The foreground program of lines 384-401. -/
def fgProgram (pid : Int) : List Stmt :=
  [Stmt.set_fg_pid pid, Stmt.alarm 10, Stmt.waitpid pid, Stmt.alarm 0, Stmt.reset_fg_pid]

/-- Invariant of the foreground program after `k` of its statements, for initial record `K`. -/
def fgInv (pid : Int) (K : List Int) (k : Nat) (w : Watchdog) : Prop :=
  match k with
  | 0 => w.fg_pid = -1 ∧ w.pending = false ∧ w.kill_calls = K
  | 1 => w.fg_pid = pid ∧ w.pending = false ∧ w.kill_calls = K
  | 2 => (w.fg_pid = pid ∧ w.pending = true ∧ w.kill_calls = K) ∨
         (w.fg_pid = -1 ∧ w.pending = false ∧ w.kill_calls = K ++ [pid])
  | 3 => (w.fg_pid = pid ∧ w.pending = true ∧ w.kill_calls = K) ∨
         (w.fg_pid = -1 ∧ w.pending = false ∧ w.kill_calls = K ++ [pid])
  | 4 => ((w.fg_pid = pid ∧ w.kill_calls = K) ∨ (w.fg_pid = -1 ∧ w.kill_calls = K ++ [pid])) ∧
         w.pending = false
  | _ => w.fg_pid = -1 ∧ w.pending = false ∧ (w.kill_calls = K ∨ w.kill_calls = K ++ [pid])

/-! ## Proofs: tokenizer -/

theorem runStartsAt_eq (l : List Char) : runStartsAt l = startAt true l := by
  funext i
  cases i <;> simp [runStartsAt, startAt]

theorem positional_eq_runsAux (l : List Char) :
    ∀ p, ((List.range l.length).filter (startAt p l)).map (runAt l) = runsAux p l := by
  induction l with
  | nil => intro p; simp [runsAux]
  | cons x l ih =>
    intro p
    have hs : ∀ i, startAt p (x :: l) (i + 1) = startAt (isDelim x) l i := by
      intro i
      cases i <;> simp [startAt]
    have hr : ∀ i, runAt (x :: l) (i + 1) = runAt l i := by
      intro i; simp [runAt]
    have h0 : startAt p (x :: l) 0 = (!isDelim x && p) := by simp [startAt]
    have hr0 : runAt (x :: l) 0 = (x :: l).takeWhile (fun c => !isDelim c) := by simp [runAt]
    rw [List.length_cons, List.range_succ_eq_map, List.filter_cons, h0]
    have key : (List.filter (startAt p (x :: l)) (List.map Nat.succ (List.range l.length))).map
        (runAt (x :: l)) = runsAux (isDelim x) l := by
      rw [← ih (isDelim x), List.filter_map, List.map_map]
      have e1 : (startAt p (x :: l) ∘ Nat.succ) = startAt (isDelim x) l := by
        funext i; exact hs i
      have e2 : (runAt (x :: l) ∘ Nat.succ) = runAt l := by
        funext i; exact hr i
      rw [e1, e2]
    by_cases hc : (!isDelim x && p) = true
    · rw [if_pos hc, List.map_cons, key, hr0, runsAux, if_pos hc]
    · rw [if_neg hc, key, runsAux, if_neg hc]

theorem specRuns_eq_runsAux (l : List Char) : specRuns l = runsAux true l := by
  rw [specRuns, runStartsAt_eq, positional_eq_runsAux]

theorem runsAux_true_dropWhile (l : List Char) :
    runsAux true l = runsAux true (l.dropWhile isDelim) := by
  induction l with
  | nil => rfl
  | cons x l ih =>
    by_cases hx : isDelim x = true
    · rw [List.dropWhile_cons_of_pos hx, ← ih, runsAux]
      simp [hx]
    · rw [List.dropWhile_cons_of_neg hx]

theorem runsAux_false (l : List Char) :
    runsAux false l = runsAux true ((l.dropWhile (fun c => !isDelim c)).tail) := by
  induction l with
  | nil => rfl
  | cons x l ih =>
    by_cases hx : isDelim x = true
    · rw [runsAux]
      simp [List.dropWhile_cons, hx]
    · have hx2 : isDelim x = false := by simpa using hx
      rw [runsAux, hx2, ih]
      simp [List.dropWhile_cons, hx2]

theorem strtok_none {s : List Char} (h : strtok s = none) : specRuns s = [] := by
  rw [specRuns_eq_runsAux, runsAux_true_dropWhile]
  unfold strtok at h
  split at h
  · next e => rw [e]; rfl
  · cases h

theorem strtok_some {s t rest : List Char} (h : strtok s = some (t, rest)) :
    specRuns s = t :: specRuns rest := by
  rw [specRuns_eq_runsAux, specRuns_eq_runsAux, runsAux_true_dropWhile]
  unfold strtok at h
  split at h
  · cases h
  · next c cs e =>
    have hc : isDelim c = false := by
      have := List.head_dropWhile_not isDelim s (by rw [e]; simp)
      simpa [e] using this
    simp only [Option.some.injEq, Prod.mk.injEq] at h
    obtain ⟨h1, h2⟩ := h
    rw [e, runsAux]
    simp only [hc, Bool.not_false, Bool.and_self, if_true]
    rw [← h1, ← h2, runsAux_false cs]
    simp [List.dropWhile_cons, hc]

theorem substitute_eq_specArg (getenv : String → Option String) (run : List Char) :
    substitute getenv run = specArg getenv run := by
  cases run with
  | nil => simp [substitute, specArg]
  | cons c name =>
    by_cases hc : c = '$'
    · subst hc
      simp only [substitute, specArg, List.head?_cons, List.tail_cons, if_true]
      cases getenv (String.mk name) <;> rfl
    · simp [substitute, specArg, hc]

theorem tokLoop_spec (getenv : String → Option String) :
    ∀ (fuel : Nat) (s : List Char) (c : Nat) (a : Slots),
      c ≤ 127 → 128 ≤ c + fuel →
      (tokLoop getenv fuel (strtok s) c a).1 = min (c + (specRuns s).length) 127 ∧
      (∀ i, i < c → (tokLoop getenv fuel (strtok s) c a).2 i = a i) ∧
      (∀ j, c + j < (tokLoop getenv fuel (strtok s) c a).1 →
        (tokLoop getenv fuel (strtok s) c a).2 (c + j)
          = ((specRuns s)[j]?).map (substitute getenv)) ∧
      (tokLoop getenv fuel (strtok s) c a).2 (tokLoop getenv fuel (strtok s) c a).1 = none := by
  intro fuel
  induction fuel with
  | zero => intro s c a h1 h2; omega
  | succ fuel ih =>
    intro s c a h1 h2
    cases hs : strtok s with
    | none =>
      rw [strtok_none hs]
      simp only [tokLoop, List.length_nil, Nat.add_zero]
      refine ⟨by omega, ?_, ?_, by simp [setSlot]⟩
      · intro i hi; simp [setSlot]; omega
      · intro j hj; omega
    | some p =>
      obtain ⟨t, rest⟩ := p
      rw [strtok_some hs]
      by_cases hc : c < MAX_COMMAND_LINE_ARGS - 1
      · simp only [tokLoop, if_pos hc]
        have hc2 : c < 127 := hc
        obtain ⟨i1, i2, i3, i4⟩ := ih rest (c + 1)
          (setSlot a c (some (substitute getenv t))) (by omega) (by omega)
        refine ⟨?_, ?_, ?_, i4⟩
        · rw [i1, List.length_cons]; congr 1; omega
        · intro i hi
          rw [i2 i (by omega)]
          simp [setSlot]; omega
        · intro j hj
          cases j with
          | zero =>
            have := i2 c (by omega)
            simp only [Nat.add_zero]
            rw [this]
            simp [setSlot]
          | succ j =>
            have := i3 j (by rw [show c + 1 + j = c + (j + 1) by omega]; exact hj)
            rw [show c + 1 + j = c + (j + 1) by omega] at this
            rw [this]; simp
      · simp only [tokLoop, if_neg hc]
        have hc2 : c = 127 := by
          have : ¬ c < 127 := hc
          omega
        subst hc2
        refine ⟨by simp, ?_, ?_, by simp [setSlot]⟩
        · intro i hi; simp [setSlot]; omega
        · intro j hj; omega

/-- The array `tokenize_and_substitute` leaves behind holds the arguments of the first 127 runs
as a NULL-terminated vector, and the returned count is its length. -/
theorem tokenize_holds (getenv : String → Option String) (command_line : String)
    (arguments : Slots) :
    Holds (tokenize_and_substitute getenv command_line arguments).2
      (((specRuns command_line.data).take 127).map (specArg getenv)) ∧
    (tokenize_and_substitute getenv command_line arguments).1
      = (((specRuns command_line.data).take 127).map (specArg getenv)).length := by
  obtain ⟨h1, -, h3, h4⟩ := tokLoop_spec getenv 128 command_line.data 0 arguments
    (by omega) (by omega)
  simp only [Nat.zero_add] at h1 h3
  have hlen : (((specRuns command_line.data).take 127).map (specArg getenv)).length
      = (tokLoop getenv 128 (strtok command_line.data) 0 arguments).1 := by
    rw [h1, List.length_map, List.length_take, Nat.min_comm]
  refine ⟨⟨?_, ?_⟩, hlen.symm⟩
  · rw [hlen, h1]
    simp only [MAX_COMMAND_LINE_ARGS]
    omega
  · intro k hk
    rw [hlen] at hk
    rw [Nat.zero_add]
    unfold tokenize_and_substitute MAX_COMMAND_LINE_ARGS
    by_cases hlt : k < (tokLoop getenv 128 (strtok command_line.data) 0 arguments).1
    · have hk2 : k < (specRuns command_line.data).length ∧ k < 127 := by
        rw [h1] at hlt; omega
      rw [h3 k hlt, List.getElem?_map, List.getElem?_take_of_lt hk2.2,
        List.getElem?_eq_getElem hk2.1]
      simp [substitute_eq_specArg]
    · have hke : k = (tokLoop getenv 128 (strtok command_line.data) 0 arguments).1 := by
        omega
      rw [hke, h4, List.getElem?_eq_none (by rw [hlen])]

/-! ## Proofs: arrays and the scanning loops -/

theorem holdsFrom_nil {a : Slots} {i : Nat} (h : HoldsFrom a i []) : a i = none := by
  have := h 0 (Nat.le_refl _)
  simpa using this

theorem holdsFrom_cons {a : Slots} {i : Nat} {x : String} {suf : List String}
    (h : HoldsFrom a i (x :: suf)) : a i = some x ∧ HoldsFrom a (i + 1) suf := by
  constructor
  · have := h 0 (Nat.zero_le _)
    simpa using this
  · intro k hk
    have := h (k + 1) (by simpa using hk)
    rw [show i + 1 + k = i + (k + 1) by omega, this]
    simp

theorem holdsFrom_append {a : Slots} {i : Nat} {pre suf : List String}
    (h : HoldsFrom a i (pre ++ suf)) : HoldsFrom a (i + pre.length) suf := by
  induction pre generalizing i with
  | nil => simpa using h
  | cons x pre ih =>
    have h2 := (holdsFrom_cons (by simpa using h)).2
    have := ih h2
    rw [List.length_cons, show i + (pre.length + 1) = i + 1 + pre.length by omega]
    exact this

theorem holds_ofList (ts : List String) (h : ts.length < MAX_COMMAND_LINE_ARGS) :
    Holds (ofList ts) ts := by
  refine ⟨h, ?_⟩
  intro k _
  simp [ofList]

theorem argvFrom_holds {a : Slots} : ∀ (suf : List String) (fuel i : Nat),
    HoldsFrom a i suf → suf.length < fuel → argvFrom fuel i a = suf := by
  intro suf
  induction suf with
  | nil =>
    intro fuel i h hf
    cases fuel with
    | zero => rfl
    | succ fuel => simp [argvFrom, holdsFrom_nil h]
  | cons x suf ih =>
    intro fuel i h hf
    cases fuel with
    | zero => simp at hf
    | succ fuel =>
      obtain ⟨h1, h2⟩ := holdsFrom_cons h
      simp only [argvFrom, h1]
      rw [ih fuel (i + 1) h2 (by simpa using hf)]

theorem argv_holds {a : Slots} {ts : List String} (h : Holds a ts) : argv a = ts :=
  argvFrom_holds ts _ 0 h.2 h.1

theorem findPipe_none {a : Slots} : ∀ (suf : List String) (fuel i : Nat),
    HoldsFrom a i suf → "|" ∉ suf → findPipe fuel i a = none := by
  intro suf
  induction suf with
  | nil =>
    intro fuel i h _
    cases fuel with
    | zero => rfl
    | succ fuel => simp [findPipe, holdsFrom_nil h]
  | cons x suf ih =>
    intro fuel i h hn
    cases fuel with
    | zero => rfl
    | succ fuel =>
      obtain ⟨h1, h2⟩ := holdsFrom_cons h
      have hx : x ≠ "|" := fun e => hn (by simp [e])
      simp only [findPipe, h1, if_neg hx]
      exact ih fuel (i + 1) h2 (fun hm => hn (List.mem_cons_of_mem _ hm))

theorem findPipe_some {a : Slots} : ∀ (c1 c2 : List String) (fuel i : Nat),
    HoldsFrom a i (c1 ++ "|" :: c2) → "|" ∉ c1 → c1.length < fuel →
    findPipe fuel i a = some (i + c1.length) := by
  intro c1
  induction c1 with
  | nil =>
    intro c2 fuel i h _ hf
    cases fuel with
    | zero => simp at hf
    | succ fuel =>
      have h1 := (holdsFrom_cons (by simpa using h)).1
      simp [findPipe, h1]
  | cons x c1 ih =>
    intro c2 fuel i h hn hf
    cases fuel with
    | zero => simp at hf
    | succ fuel =>
      obtain ⟨h1, h2⟩ := holdsFrom_cons (by simpa using h)
      have hx : x ≠ "|" := fun e => hn (by simp [e])
      simp only [findPipe, h1, if_neg hx]
      rw [ih c2 fuel (i + 1) h2 (fun hm => hn (List.mem_cons_of_mem _ hm)) (by simpa using hf)]
      simp only [List.length_cons]
      congr 1
      omega

theorem copyCmd2_spec {a : Slots} : ∀ (suf : List String) (fuel i c : Nat) (b : Slots),
    HoldsFrom a i suf → suf.length < fuel →
    HoldsFrom (copyCmd2 fuel i c a b) c suf := by
  have keep : ∀ (fuel i c : Nat) (b : Slots) (j : Nat), j < c →
      copyCmd2 fuel i c a b j = b j := by
    intro fuel
    induction fuel with
    | zero => intro i c b j hj; simp [copyCmd2, setSlot]; omega
    | succ fuel ih =>
      intro i c b j hj
      simp only [copyCmd2]
      cases a i with
      | none => simp [setSlot]; omega
      | some tok =>
        simp only []
        rw [ih _ _ _ j (by omega)]
        simp [setSlot]; omega
  intro suf
  induction suf with
  | nil =>
    intro fuel i c b h _
    intro k hk
    have hk0 : k = 0 := by simpa using hk
    subst hk0
    cases fuel with
    | zero => simp [copyCmd2, setSlot]
    | succ fuel => simp [copyCmd2, holdsFrom_nil h, setSlot]
  | cons x suf ih =>
    intro fuel i c b h hf
    cases fuel with
    | zero => simp at hf
    | succ fuel =>
      obtain ⟨h1, h2⟩ := holdsFrom_cons h
      simp only [copyCmd2, h1]
      have hrec := ih fuel (i + 1) (c + 1) (setSlot b c (some x)) h2 (by simpa using hf)
      intro k hk
      cases k with
      | zero =>
        have := keep fuel (i + 1) (c + 1) (setSlot b c (some x)) c (by omega)
        simp only [Nat.add_zero]
        rw [this]
        simp [setSlot]
      | succ k =>
        have := hrec k (by simpa using hk)
        rw [show c + (k + 1) = c + 1 + k by omega, this]
        simp

theorem copyCmd1_holds {a : Slots} {c1 rest : List String} (h : HoldsFrom a 0 (c1 ++ rest)) :
    HoldsFrom (copyCmd1 a c1.length) 0 c1 := by
  intro k hk
  simp only [copyCmd1, Nat.zero_add]
  by_cases hlt : k < c1.length
  · rw [if_pos hlt]
    have := h k (by simp; omega)
    rw [Nat.zero_add] at this
    rw [this, List.getElem?_append_left hlt]
  · rw [if_neg hlt, List.getElem?_eq_none (by omega)]

theorem readSlot_of_lt {a : Slots} {i : Nat} (h : i < 128) : readSlot a i = some (a i) := by
  simp [readSlot, MAX_COMMAND_LINE_ARGS, h]

theorem redirLoop_past (fuel : Nat) (st : RedirState) :
    (redirLoop (fuel + 1) (MAX_COMMAND_LINE_ARGS + 1) st).arguments = st.arguments ∧
    (redirLoop (fuel + 1) (MAX_COMMAND_LINE_ARGS + 1) st).input_file = st.input_file ∧
    (redirLoop (fuel + 1) (MAX_COMMAND_LINE_ARGS + 1) st).output_file = st.output_file ∧
    (redirLoop (fuel + 1) (MAX_COMMAND_LINE_ARGS + 1) st).exec_arg_count = st.exec_arg_count ∧
    (redirLoop (fuel + 1) (MAX_COMMAND_LINE_ARGS + 1) st).overrun = true := by
  have hr : readSlot st.arguments (MAX_COMMAND_LINE_ARGS + 1) = none := by
    simp [readSlot]
  simp [redirLoop, hr]

theorem redirLoop_noMatch : ∀ (suf : List String) (fuel i : Nat) (st : RedirState),
    HoldsFrom st.arguments i suf → i + suf.length < 128 →
    (∀ t ∈ suf.dropLast, t ≠ "<" ∧ t ≠ ">") →
    (redirLoop fuel i st).arguments = st.arguments ∧
    (redirLoop fuel i st).input_file = st.input_file ∧
    (redirLoop fuel i st).output_file = st.output_file ∧
    (redirLoop fuel i st).exec_arg_count = st.exec_arg_count ∧
    (redirLoop fuel i st).overrun = st.overrun := by
  intro suf
  induction suf with
  | nil =>
    intro fuel i st h hb _
    cases fuel with
    | zero => simp [redirLoop]
    | succ fuel =>
      have hr : readSlot st.arguments i = some none := by
        rw [readSlot_of_lt (by simpa using hb), holdsFrom_nil h]
      simp [redirLoop, hr]
  | cons x suf ih =>
    intro fuel i st h hb hn
    cases fuel with
    | zero => simp [redirLoop]
    | succ fuel =>
      obtain ⟨h1, h2⟩ := holdsFrom_cons h
      have hlen : i + (suf.length + 1) < 128 := by simpa using hb
      have hr : readSlot st.arguments i = some (some x) := by
        rw [readSlot_of_lt (by omega), h1]
      have hn2 : ∀ t ∈ suf.dropLast, t ≠ "<" ∧ t ≠ ">" := by
        intro t ht
        apply hn
        cases suf with
        | nil => simp at ht
        | cons y suf => simp [List.dropLast_cons₂, ht]
      have hop : (x = "<" ∨ x = ">") → suf = [] := by
        intro hx
        cases suf with
        | nil => rfl
        | cons y suf =>
          have := hn x (by simp [List.dropLast_cons₂])
          rcases hx with e | e
          · exact absurd e this.1
          · exact absurd e this.2
      have hnext : ∀ (st2 : RedirState), st2.arguments = st.arguments →
          (redirLoop fuel (i + 1) st2).arguments = st2.arguments ∧
          (redirLoop fuel (i + 1) st2).input_file = st2.input_file ∧
          (redirLoop fuel (i + 1) st2).output_file = st2.output_file ∧
          (redirLoop fuel (i + 1) st2).exec_arg_count = st2.exec_arg_count ∧
          (redirLoop fuel (i + 1) st2).overrun = st2.overrun := by
        intro st2 e
        exact ih fuel (i + 1) st2 (by rw [e]; exact h2) (by omega) hn2
      have hla : (x = "<" ∨ x = ">") → readSlot st.arguments (i + 1) = some none := by
        intro hx
        have e := hop hx
        subst e
        rw [readSlot_of_lt (by omega), holdsFrom_nil h2]
      by_cases hx1 : x = "<"
      · simp only [redirLoop, hr, if_pos hx1, hla (Or.inl hx1)]
        exact hnext _ rfl
      · by_cases hx2 : x = ">"
        · simp only [redirLoop, hr, if_neg hx1, if_pos hx2, hla (Or.inr hx2)]
          exact hnext _ rfl
        · simp only [redirLoop, hr, if_neg hx1, if_neg hx2]
          exact hnext _ rfl

theorem redirLoop_match : ∀ (pre : List String) (fuel i : Nat) (st : RedirState)
    (op path : String) (post : List String),
    HoldsFrom st.arguments i (pre ++ op :: path :: post) → i + pre.length + 1 < 128 →
    (∀ t ∈ pre, t ≠ "<" ∧ t ≠ ">") → (op = "<" ∨ op = ">") → pre.length + 1 < fuel →
    (redirLoop fuel i st).arguments = setSlot st.arguments (i + pre.length) none ∧
    (redirLoop fuel i st).input_file = (if op = "<" then some path else st.input_file) ∧
    (redirLoop fuel i st).output_file = (if op = "<" then st.output_file else some path) ∧
    (redirLoop fuel i st).exec_arg_count = i + pre.length ∧
    (redirLoop fuel i st).overrun = true := by
  intro pre
  induction pre with
  | nil =>
    intro fuel i st op path post h hb _ hop hf
    obtain ⟨fuel, rfl⟩ : ∃ f, fuel = f + 1 + 1 := ⟨fuel - 2, by simp at hf; omega⟩
    obtain ⟨h1, h2⟩ := holdsFrom_cons (by simpa using h)
    obtain ⟨h3, -⟩ := holdsFrom_cons h2
    have hb2 : i + 1 < 128 := by simpa using hb
    have hr : readSlot st.arguments i = some (some op) := by
      rw [readSlot_of_lt (by omega), h1]
    have hr2 : readSlot st.arguments (i + 1) = some (some path) := by
      rw [readSlot_of_lt (by omega), h3]
    rcases hop with e | e
    · subst e
      rw [redirLoop]
      simp only [hr, hr2, if_true]
      obtain ⟨p1, p2, p3, p4, p5⟩ := redirLoop_past fuel
        { arguments := setSlot st.arguments i none, input_file := some path,
          output_file := st.output_file, exec_arg_count := i,
          reads := st.reads ++ [i, i + 1], overrun := st.overrun }
      rw [p1, p2, p3, p4, p5]
      simp
    · subst e
      have hne : ¬ (">" = "<") := by decide
      rw [redirLoop]
      simp only [hr, hr2, if_neg hne, if_true]
      obtain ⟨p1, p2, p3, p4, p5⟩ := redirLoop_past fuel
        { arguments := setSlot st.arguments i none, input_file := st.input_file,
          output_file := some path, exec_arg_count := i,
          reads := st.reads ++ [i, i + 1], overrun := st.overrun }
      rw [p1, p2, p3, p4, p5]
      simp
  | cons x pre ih =>
    intro fuel i st op path post h hb hn hop hf
    cases fuel with
    | zero => simp at hf
    | succ fuel =>
      obtain ⟨h1, h2⟩ := holdsFrom_cons (by simpa using h)
      have hlen : i + (pre.length + 1) + 1 < 128 := by simpa using hb
      have hr : readSlot st.arguments i = some (some x) := by
        rw [readSlot_of_lt (by omega), h1]
      have hx := hn x (by simp)
      simp only [redirLoop, hr, if_neg hx.1, if_neg hx.2]
      have := ih fuel (i + 1) { st with reads := st.reads ++ [i] } op path post h2 (by omega)
        (fun t ht => hn t (List.mem_cons_of_mem _ ht)) hop (by simpa using hf)
      simp only [List.length_cons]
      rw [show i + (pre.length + 1) = i + 1 + pre.length by omega]
      exact this

theorem redirScan_noMatch {a : Slots} {ts : List String} (n : Nat) (h : Holds a ts)
    (hn : ∀ t ∈ ts.dropLast, t ≠ "<" ∧ t ≠ ">") :
    (redirScan n a).arguments = a ∧ (redirScan n a).input_file = none ∧
    (redirScan n a).output_file = none ∧ (redirScan n a).exec_arg_count = n ∧
    (redirScan n a).overrun = false := by
  have hb : 0 + ts.length < 128 := by
    have := h.1
    simpa [MAX_COMMAND_LINE_ARGS] using this
  exact redirLoop_noMatch ts _ 0
    { arguments := a, input_file := none, output_file := none, exec_arg_count := n, reads := [],
      overrun := false }
    h.2 hb hn

theorem holds_truncate {a : Slots} {pre rest : List String} (h : Holds a (pre ++ rest)) :
    Holds (setSlot a pre.length none) pre := by
  refine ⟨?_, ?_⟩
  · have := h.1
    simp only [List.length_append] at this
    omega
  · intro k hk
    simp only [setSlot, Nat.zero_add]
    by_cases hlt : k = pre.length
    · rw [if_pos hlt, List.getElem?_eq_none (by omega)]
    · rw [if_neg hlt]
      have hk2 : k < pre.length := by omega
      have := h.2 k (by simp; omega)
      rw [Nat.zero_add] at this
      rw [this, List.getElem?_append_left hk2]

theorem redirScan_match {a : Slots} {pre post : List String} {op path : String} (n : Nat)
    (h : Holds a (pre ++ op :: path :: post)) (hn : ∀ t ∈ pre, t ≠ "<" ∧ t ≠ ">")
    (hop : op = "<" ∨ op = ">") :
    (redirScan n a).arguments = setSlot a pre.length none ∧
    (redirScan n a).input_file = (if op = "<" then some path else none) ∧
    (redirScan n a).output_file = (if op = "<" then none else some path) ∧
    (redirScan n a).exec_arg_count = pre.length ∧
    (redirScan n a).overrun = true := by
  have hlen : pre.length + (post.length + 1 + 1) < 128 := by
    have := h.1
    simpa [MAX_COMMAND_LINE_ARGS] using this
  have := redirLoop_match pre (MAX_COMMAND_LINE_ARGS + 2) 0
    { arguments := a, input_file := none, output_file := none, exec_arg_count := n, reads := [],
      overrun := false }
    op path post h.2 (by omega) hn hop (by simp only [MAX_COMMAND_LINE_ARGS]; omega)
  simpa using this

theorem guard_false {a : Slots} {ts : List String} (h : Holds a ts) (h0 : ts ≠ [])
    (hg : ts.head? ≠ some "") : ¬ (ts.length = 0 ∨ a 0 = some "") := by
  intro hc
  rcases hc with hc | hc
  · exact h0 (List.length_eq_zero.1 hc)
  · have := h.2 0 (Nat.zero_le _)
    rw [Nat.zero_add, hc] at this
    cases ts with
    | nil => exact h0 rfl
    | cons x ts =>
      simp at this hg
      exact hg this.symm

theorem handleLine_undefined {a : Slots} {n : Nat} (hg : ¬ (n = 0 ∨ a 0 = some ""))
    (ho : (redirScan n a).overrun = true) : handleLine n a = Outcome.undefined := by
  unfold handleLine
  rw [if_neg hg]
  simp only [ho, if_true]

theorem handleLine_pipe {a : Slots} {n : Nat} (hg : ¬ (n = 0 ∨ a 0 = some ""))
    (ho : (redirScan n a).overrun = false) {c1 c2 : List String} (h : Holds (redirScan n a).arguments (c1 ++ "|" :: c2))
    (hn : "|" ∉ c1) :
    handleLine n a
      = if c1 = [] ∨ c2 = [] then Outcome.pipeError else Outcome.pipeline c1 c2 := by
  have hlen : c1.length + (c2.length + 1) < 128 := by
    have := h.1
    simpa [MAX_COMMAND_LINE_ARGS] using this
  have hp := findPipe_some c1 c2 MAX_COMMAND_LINE_ARGS 0 h.2 hn
    (by simp only [MAX_COMMAND_LINE_ARGS]; omega)
  rw [Nat.zero_add] at hp
  have hc1 := copyCmd1_holds h.2
  have hc2 : HoldsFrom (copyCmd2 MAX_COMMAND_LINE_ARGS (c1.length + 1) 0
      (redirScan n a).arguments (fun _ => none)) 0 c2 := by
    apply copyCmd2_spec
    · have := holdsFrom_append h.2
      rw [Nat.zero_add] at this
      exact (holdsFrom_cons this).2
    · simp only [MAX_COMMAND_LINE_ARGS]; omega
  have e1 : argv (copyCmd1 (redirScan n a).arguments c1.length) = c1 :=
    argvFrom_holds c1 _ 0 hc1 (by simp only [MAX_COMMAND_LINE_ARGS]; omega)
  have e2 : argv (copyCmd2 MAX_COMMAND_LINE_ARGS (c1.length + 1) 0
      (redirScan n a).arguments (fun _ => none)) = c2 :=
    argvFrom_holds c2 _ 0 hc2 (by simp only [MAX_COMMAND_LINE_ARGS]; omega)
  have z1 : copyCmd1 (redirScan n a).arguments c1.length 0 = none ↔ c1 = [] := by
    have := hc1 0 (Nat.zero_le _)
    rw [Nat.zero_add] at this
    rw [this]
    cases c1 <;> simp
  have z2 : copyCmd2 MAX_COMMAND_LINE_ARGS (c1.length + 1) 0
      (redirScan n a).arguments (fun _ => none) 0 = none ↔ c2 = [] := by
    have := hc2 0 (Nat.zero_le _)
    rw [Nat.zero_add] at this
    rw [this]
    cases c2 <;> simp
  unfold handleLine
  rw [if_neg hg]
  simp only [ho, hp, e1, e2, z1, z2]
  simp

theorem handleLine_noPipe {a : Slots} {n : Nat} (hg : ¬ (n = 0 ∨ a 0 = some ""))
    (ho : (redirScan n a).overrun = false) {t : List String} (h : Holds (redirScan n a).arguments t) (hn : "|" ∉ t) :
    handleLine n a = dispatch (redirScan n a) := by
  have hp := findPipe_none t MAX_COMMAND_LINE_ARGS 0 h.2 hn
  unfold handleLine
  rw [if_neg hg]
  simp only [ho, hp]
  simp

/-- Every line that passes the guard and has a redirection operator followed by a token runs
into the read outside the array. -/
theorem handleLine_matched {a : Slots} {pre post : List String} {op path : String}
    (h : Holds a (pre ++ op :: path :: post))
    (hg : (pre ++ op :: path :: post).head? ≠ some "")
    (hn : ∀ t ∈ pre, t ≠ "<" ∧ t ≠ ">") (hop : op = "<" ∨ op = ">") :
    handleLine (pre ++ op :: path :: post).length a = Outcome.undefined :=
  handleLine_undefined (guard_false h (by simp) hg)
    (redirScan_match (pre ++ op :: path :: post).length h hn hop).2.2.2.2

/-! ## Proofs: dispatch and echo -/

theorem dispatch_not_pipe (r : RedirState) :
    dispatch r ≠ Outcome.pipeError ∧ ∀ x y, dispatch r ≠ Outcome.pipeline x y := by
  unfold dispatch
  constructor
  · repeat' split
    all_goals simp
  · intro x y
    repeat' split
    all_goals simp

theorem holds_head {a : Slots} {cmd : String} {rest : List String}
    (h : Holds a (cmd :: rest)) : a 0 = some cmd := by
  have := h.2 0 (Nat.zero_le _)
  simpa using this

theorem dispatch_external_bg {r : RedirState} {v : List String}
    (h : Holds r.arguments (v ++ ["&"])) (he : r.exec_arg_count = (v ++ ["&"]).length)
    (hb : ∀ cmd, (v ++ ["&"]).head? = some cmd → ¬ isBuiltin cmd) :
    dispatch r = Outcome.external v r.input_file r.output_file true := by
  have hlast : r.arguments (r.exec_arg_count - 1) = some "&" := by
    have := h.2 v.length (by simp)
    rw [Nat.zero_add] at this
    rw [he]
    simpa using this
  have hpos : 0 < r.exec_arg_count := by rw [he]; simp
  have hv : argv (setSlot r.arguments (r.exec_arg_count - 1) none) = v := by
    have : r.exec_arg_count - 1 = v.length := by rw [he]; simp
    rw [this]
    exact argv_holds (holds_truncate h)
  cases hvc : v ++ ["&"] with
  | nil => simp at hvc
  | cons cmd rest =>
    have h0 : r.arguments 0 = some cmd := holds_head (by rw [← hvc]; exact h)
    have nb := hb cmd (by rw [hvc]; rfl)
    simp only [isBuiltin, not_or] at nb
    obtain ⟨n1, n2, n3, n4, n5, n6, n7⟩ := nb
    unfold dispatch
    simp only [h0, if_neg n1, if_neg n2, if_neg n3, if_neg n6, if_neg n7,
      if_neg (not_or.2 ⟨n4, n5⟩), if_pos (And.intro hpos hlast), hv]

theorem dispatch_external_fg {r : RedirState} {t : List String} {cmd : String}
    (h : Holds r.arguments t) (he : r.exec_arg_count = t.length)
    (hc : t.head? = some cmd) (hb : ¬ isBuiltin cmd) (hl : t.getLast? ≠ some "&") :
    dispatch r = Outcome.external t r.input_file r.output_file false := by
  have hlast : ¬ (0 < r.exec_arg_count ∧ r.arguments (r.exec_arg_count - 1) = some "&") := by
    rintro ⟨hp, hq⟩
    apply hl
    rw [List.getLast?_eq_getElem?, ← he, ← hq]
    have := h.2 (r.exec_arg_count - 1) (by omega)
    rw [Nat.zero_add] at this
    exact this.symm
  cases t with
  | nil => simp at hc
  | cons c rest =>
    have hcc : c = cmd := by simpa using hc
    subst hcc
    have h0 : r.arguments 0 = some c := holds_head h
    simp only [isBuiltin, not_or] at hb
    obtain ⟨n1, n2, n3, n4, n5, n6, n7⟩ := hb
    unfold dispatch
    simp only [h0, if_neg n1, if_neg n2, if_neg n3, if_neg n6, if_neg n7,
      if_neg (not_or.2 ⟨n4, n5⟩), if_neg hlast, argv_holds h]

theorem dispatch_echo {r : RedirState} {args : List String}
    (h : Holds r.arguments ("echo" :: args)) :
    dispatch r = Outcome.echo (echoText r.arguments) := by
  have h0 : r.arguments 0 = some "echo" := holds_head h
  unfold dispatch
  simp only [h0]
  rw [if_neg (by decide), if_neg (by decide)]
  simp

theorem intercalate_go_append (s : String) : ∀ (ys : List String) (p q : String),
    String.intercalate.go (p ++ q) s ys = p ++ String.intercalate.go q s ys := by
  intro ys
  induction ys with
  | nil => intro p q; rfl
  | cons y ys ih =>
    intro p q
    simp only [String.intercalate.go]
    rw [String.append_assoc, String.append_assoc, ih, String.append_assoc]

theorem echoLoop_holds {a : Slots} : ∀ (args : List String) (fuel i : Nat),
    HoldsFrom a i args → (∀ x ∈ args, x ≠ "") → args.length < fuel →
    echoLoop fuel i a = String.intercalate " " args := by
  intro args
  induction args with
  | nil =>
    intro fuel i h _ hf
    cases fuel with
    | zero => simp at hf
    | succ fuel => simp [echoLoop, holdsFrom_nil h, String.intercalate]
  | cons x args ih =>
    intro fuel i h hne hf
    cases fuel with
    | zero => simp at hf
    | succ fuel =>
      obtain ⟨h1, h2⟩ := holdsFrom_cons h
      have hx : x ≠ "" := hne x (by simp)
      have hrec := ih fuel (i + 1) h2 (fun y hy => hne y (List.mem_cons_of_mem _ hy))
        (by simpa using hf)
      simp only [echoLoop, h1, if_neg hx, hrec]
      cases args with
      | nil =>
        have := holdsFrom_nil h2
        simp [this, String.intercalate, String.intercalate.go]
      | cons y args =>
        have := (holdsFrom_cons h2).1
        simp only [this, Option.isSome_some, if_true, String.intercalate,
          String.intercalate.go]
        rw [intercalate_go_append]

theorem handleLine_echo {a : Slots} {n : Nat} (hg : ¬ (n = 0 ∨ a 0 = some ""))
    (ho : (redirScan n a).overrun = false) {args : List String} (h : Holds (redirScan n a).arguments ("echo" :: args))
    (hne : ∀ x ∈ args, x ≠ "") (hp : "|" ∉ args) :
    handleLine n a = Outcome.echo (String.intercalate " " args ++ "\n") := by
  have hp2 : "|" ∉ "echo" :: args := by
    intro hm
    rcases List.mem_cons.1 hm with e | e
    · exact absurd e (by decide)
    · exact hp e
  rw [handleLine_noPipe hg ho h hp2, dispatch_echo h]
  have hlen : args.length + 1 < 128 := by
    have := h.1
    simpa [MAX_COMMAND_LINE_ARGS] using this
  have h2 := (holdsFrom_cons h.2).2
  unfold echoText
  rw [echoLoop_holds args MAX_COMMAND_LINE_ARGS (0 + 1) h2 hne
    (by simp only [MAX_COMMAND_LINE_ARGS]; omega)]

theorem dispatch_builtin {r : RedirState} {t : List String} {cmd : String}
    (h : Holds r.arguments t) (hc : t.head? = some cmd) (hb : isBuiltin cmd) :
    ∀ args i o bg, dispatch r ≠ Outcome.external args i o bg := by
  cases t with
  | nil => simp at hc
  | cons c rest =>
    have hcc : c = cmd := by simpa using hc
    subst hcc
    have h0 : r.arguments 0 = some c := holds_head h
    intro args i o bg
    unfold dispatch
    simp only [h0]
    rcases hb with e | e | e | e | e | e | e <;> subst e <;> simp

/-! ## Proofs: watchdog -/

theorem runEvents_cons (w : Watchdog) (e : Event) (evs : List Event) :
    runEvents w (e :: evs) = runEvents (e.apply w) evs := rfl

theorem runEvents_append (w : Watchdog) (xs ys : List Event) :
    runEvents w (xs ++ ys) = runEvents (runEvents w xs) ys := by
  simp [runEvents, List.foldl_append]

theorem stmtsOf_append (xs ys : List Event) : stmtsOf (xs ++ ys) = stmtsOf xs ++ stmtsOf ys := by
  induction xs with
  | nil => rfl
  | cons e xs ih =>
    cases e with
    | stmt s => simp [stmtsOf, ih]
    | expiry => simp [stmtsOf, ih]

/-- Without a pending countdown and without statements nothing changes. -/
theorem runEvents_quiet : ∀ (evs : List Event) (w : Watchdog),
    stmtsOf evs = [] → w.pending = false → runEvents w evs = w := by
  intro evs
  induction evs with
  | nil => intro w _ _; rfl
  | cons e evs ih =>
    intro w hs hp
    cases e with
    | stmt s => simp [stmtsOf] at hs
    | expiry =>
      rw [runEvents_cons]
      have : Event.expiry.apply w = w := by simp [Event.apply, hp]
      rw [this]
      exact ih w (by simpa [stmtsOf] using hs) hp

theorem fgInv_step (pid : Int) (K : List Int) (hpid : 0 < pid) :
    ∀ (evs : List Event) (k : Nat) (w : Watchdog),
      stmtsOf evs = (fgProgram pid).drop k → fgInv pid K k w →
      fgInv pid K 5 (runEvents w evs) := by
  intro evs
  induction evs with
  | nil =>
    intro k w hs hi
    have hk : 5 ≤ k := by
      by_contra hlt
      have : k = 0 ∨ k = 1 ∨ k = 2 ∨ k = 3 ∨ k = 4 := by omega
      rcases this with rfl | rfl | rfl | rfl | rfl <;> simp [stmtsOf, fgProgram] at hs
    have : fgInv pid K k w = fgInv pid K 5 w := by
      obtain ⟨m, rfl⟩ : ∃ m, k = m + 5 := ⟨k - 5, by omega⟩
      rfl
    rw [this] at hi
    exact hi
  | cons e evs ih =>
    intro k w hs hi
    rw [runEvents_cons]
    obtain ⟨fg, p, ks⟩ := w
    cases e with
    | expiry =>
      apply ih k _ (by simpa [stmtsOf] using hs)
      by_cases hk : 5 ≤ k
      · obtain ⟨m, rfl⟩ : ∃ m, k = m + 5 := ⟨k - 5, by omega⟩
        have hi2 : fg = -1 ∧ p = false ∧ (ks = K ∨ ks = K ++ [pid]) := hi
        obtain ⟨h1, h2, h3⟩ := hi2
        subst h2
        exact ⟨h1, rfl, h3⟩
      · have : k = 0 ∨ k = 1 ∨ k = 2 ∨ k = 3 ∨ k = 4 := by omega
        rcases this with rfl | rfl | rfl | rfl | rfl
        · obtain ⟨h1, h2, h3⟩ := hi
          simp only at h1 h2 h3
          subst h2
          exact ⟨h1, rfl, h3⟩
        · obtain ⟨h1, h2, h3⟩ := hi
          simp only at h1 h2 h3
          subst h2
          exact ⟨h1, rfl, h3⟩
        · rcases hi with ⟨h1, h2, h3⟩ | ⟨h1, h2, h3⟩
          · simp only at h1 h2 h3
            subst h1 h2 h3
            right
            simp [Event.apply, sigalrm_handler, hpid]
          · simp only at h1 h2 h3
            subst h1 h2 h3
            right
            simp [Event.apply]
        · rcases hi with ⟨h1, h2, h3⟩ | ⟨h1, h2, h3⟩
          · simp only at h1 h2 h3
            subst h1 h2 h3
            right
            simp [Event.apply, sigalrm_handler, hpid]
          · simp only at h1 h2 h3
            subst h1 h2 h3
            right
            simp [Event.apply]
        · obtain ⟨h1, h2⟩ := hi
          simp only at h1 h2
          subst h2
          exact ⟨h1, rfl⟩
    | stmt s =>
      by_cases hk : 5 ≤ k
      · exfalso
        have : (fgProgram pid).drop k = [] := by
          apply List.drop_of_length_le
          simpa [fgProgram] using hk
        rw [this] at hs
        simp [stmtsOf] at hs
      · have : k = 0 ∨ k = 1 ∨ k = 2 ∨ k = 3 ∨ k = 4 := by omega
        rcases this with rfl | rfl | rfl | rfl | rfl
        · simp only [stmtsOf, fgProgram, List.drop_zero, List.cons.injEq] at hs
          obtain ⟨rfl, hs2⟩ := hs
          apply ih 1 _ (by simpa [fgProgram] using hs2)
          obtain ⟨h1, h2, h3⟩ := hi
          exact ⟨rfl, h2, h3⟩
        · simp only [stmtsOf, fgProgram, List.drop_succ_cons, List.drop_zero,
            List.cons.injEq] at hs
          obtain ⟨rfl, hs2⟩ := hs
          apply ih 2 _ (by simpa [fgProgram] using hs2)
          obtain ⟨h1, h2, h3⟩ := hi
          left
          exact ⟨h1, by simp [Event.apply, Stmt.exec], h3⟩
        · simp only [stmtsOf, fgProgram, List.drop_succ_cons, List.drop_zero,
            List.cons.injEq] at hs
          obtain ⟨rfl, hs2⟩ := hs
          apply ih 3 _ (by simpa [fgProgram] using hs2)
          exact hi
        · simp only [stmtsOf, fgProgram, List.drop_succ_cons, List.drop_zero,
            List.cons.injEq] at hs
          obtain ⟨rfl, hs2⟩ := hs
          apply ih 4 _ (by simpa [fgProgram] using hs2)
          rcases hi with ⟨h1, h2, h3⟩ | ⟨h1, h2, h3⟩
          · exact ⟨Or.inl ⟨h1, h3⟩, by simp [Event.apply, Stmt.exec]⟩
          · exact ⟨Or.inr ⟨h1, h3⟩, by simp [Event.apply, Stmt.exec]⟩
        · simp only [stmtsOf, fgProgram, List.drop_succ_cons, List.drop_zero,
            List.cons.injEq] at hs
          obtain ⟨rfl, hs2⟩ := hs
          apply ih 5 _ (by simpa [fgProgram] using hs2)
          obtain ⟨h1, h2⟩ := hi
          refine ⟨rfl, h2, ?_⟩
          rcases h1 with ⟨-, h3⟩ | ⟨-, h3⟩
          · exact Or.inl h3
          · exact Or.inr h3

theorem watchdogStmts_cases (l : LineRun) :
    watchdogStmts l.outcome l.pid = [] ∨
    (watchdogStmts l.outcome l.pid = fgProgram l.pid ∧ l.foreground) := by
  obtain ⟨o, pid, evs⟩ := l
  cases o with
  | external args i o bg =>
    simp only [watchdogStmts]
    by_cases h1 : pid < 0
    · left; simp [h1]
    · by_cases h2 : pid = 0
      · left; simp [h2]
      · cases bg with
        | true => left; simp [h1, h2]
        | false =>
          right
          refine ⟨by simp [h1, h2, fgProgram], ?_, args, i, o, rfl⟩
          show 0 < pid
          omega
  | _ => left; rfl

theorem line_step (l : LineRun) (w : Watchdog) (hv : l.valid) (hi : w.idle) :
    (runEvents w l.events).idle ∧
    ((runEvents w l.events).kill_calls = w.kill_calls ∨
      ((runEvents w l.events).kill_calls = w.kill_calls ++ [l.pid] ∧ l.foreground)) ∧
    (∀ pre post, l.events = pre ++ post → (runEvents w pre).pending = true →
      l.foreground) := by
  rcases watchdogStmts_cases l with h | ⟨h, hf⟩
  · have hs : stmtsOf l.events = [] := by rw [← h]; exact hv
    rw [runEvents_quiet l.events w hs hi.2]
    refine ⟨hi, Or.inl rfl, ?_⟩
    intro pre post e hp
    have : stmtsOf pre = [] := by
      have h2 := hs
      rw [e, stmtsOf_append] at h2
      exact (List.append_eq_nil.1 h2).1
    rw [runEvents_quiet pre w this hi.2, hi.2] at hp
    cases hp
  · have hs : stmtsOf l.events = (fgProgram l.pid).drop 0 := by
      rw [List.drop_zero, ← h]; exact hv
    have := fgInv_step l.pid w.kill_calls hf.1 l.events 0 w hs ⟨hi.1, hi.2, rfl⟩
    obtain ⟨h1, h2, h3⟩ := this
    refine ⟨⟨h1, h2⟩, ?_, fun _ _ _ _ => hf⟩
    rcases h3 with h3 | h3
    · exact Or.inl h3
    · exact Or.inr ⟨h3, hf⟩

theorem runLines_append (w : Watchdog) (xs ys : List LineRun) :
    runLines w (xs ++ ys) = runLines (runLines w xs) ys := by
  simp [runLines, List.foldl_append]

theorem runLines_idle : ∀ (ls : List LineRun) (w : Watchdog),
    w.idle → (∀ l ∈ ls, l.valid) → (runLines w ls).idle := by
  intro ls
  induction ls with
  | nil => intro w hi _; exact hi
  | cons l ls ih =>
    intro w hi hv
    have h1 := (line_step l w (hv l (by simp)) hi).1
    exact ih _ h1 (fun x hx => hv x (List.mem_cons_of_mem _ hx))

/-- C1 fails on the code: for the line `echo a $UNSET b` with `UNSET` not set, whatever the array
held before, the echo loop of line 278 ends at the empty argument: the shell prints `a`, one
space and the newline, and `b` is never printed. -/
theorem echo_stops_at_empty_argument (arguments : Slots) :
    processLine (fun _ => none) "echo a $UNSET b" arguments = Outcome.echo "a \n" := by
  rfl

/-- C3 fails on the code.  The line `$U | b` with `U` not set contains a pipe token with a
non-empty vector on each side, yet line 125 ignores it: no pipeline is run.  For the line
`ls | wc > out` the redirection scan, which runs before the pipe scan, stores `out` as the output
path and cuts the vector down to `ls | wc`, and the line then has no defined outcome (the scan
reads outside the array); it is not the pipeline with second stage `wc > out`. -/
theorem pipeline_precedence_counterexample :
    processLine (fun _ => none) "$U | b" (fun _ => none) = Outcome.ignored ∧
    (redirScan (tokenize_and_substitute (fun _ => none) "ls | wc > out" (fun _ => none)).1
      (tokenize_and_substitute (fun _ => none) "ls | wc > out" (fun _ => none)).2).output_file
      = some "out" ∧
    argv (redirScan (tokenize_and_substitute (fun _ => none) "ls | wc > out" (fun _ => none)).1
      (tokenize_and_substitute (fun _ => none) "ls | wc > out" (fun _ => none)).2).arguments
      = ["ls", "|", "wc"] ∧
    processLine (fun _ => none) "ls | wc > out" (fun _ => none) = Outcome.undefined ∧
    processLine (fun _ => none) "ls | wc > out" (fun _ => none)
      ≠ Outcome.pipeline ["ls"] ["wc", ">", "out"] := by
  decide

/-- C3 as amended: for every token vector `c1 ++ | :: c2` (no pipe token in `c1`) in which no
redirection operator is followed by a token.  If the first token is not the empty string (the
line passes the empty-command guard), the line is handled as a pipeline with stage 1 `c1` and
stage 2 `c2`, all of the tokens after the first pipe token, `&` and a trailing operator included
as literal arguments; the pipe error is reported, and nothing is spawned, exactly when `c1` or
`c2` is empty.  If the first token is the empty string, the line is ignored. -/
theorem pipeline_without_redirection (a : Slots) (c1 c2 : List String)
    (h : Holds a (c1 ++ "|" :: c2)) (hn : "|" ∉ c1)
    (hno : ∀ t ∈ (c1 ++ "|" :: c2).dropLast, t ≠ "<" ∧ t ≠ ">") :
    ((c1 ++ "|" :: c2).head? ≠ some "" →
      handleLine (c1 ++ "|" :: c2).length a
        = if c1 = [] ∨ c2 = [] then Outcome.pipeError else Outcome.pipeline c1 c2) ∧
    ((c1 ++ "|" :: c2).head? = some "" →
      handleLine (c1 ++ "|" :: c2).length a = Outcome.ignored) := by
  constructor
  · intro hg
    have hgf := guard_false h (by simp) hg
    obtain ⟨r1, -, -, -, r5⟩ := redirScan_noMatch (c1 ++ "|" :: c2).length h hno
    have hh : Holds (redirScan (c1 ++ "|" :: c2).length a).arguments (c1 ++ "|" :: c2) := by
      rw [r1]; exact h
    exact handleLine_pipe hgf r5 hh hn
  · intro hg
    have h0 : a 0 = some "" := by
      have := h.2 0 (Nat.zero_le _)
      rw [Nat.zero_add] at this
      rw [this]
      cases hc : c1 ++ "|" :: c2 with
      | nil => simp at hc
      | cons x rest =>
        rw [hc] at hg
        simpa using hg
    unfold handleLine
    rw [if_pos (Or.inr h0)]

/-- Instance: the vector `ls | wc &` is a pipeline whose second stage is `wc &`. -/
theorem pipeline_without_redirection_witness :
    Holds (ofList ["ls", "|", "wc", "&"]) (["ls"] ++ "|" :: ["wc", "&"]) ∧
    handleLine 4 (ofList ["ls", "|", "wc", "&"]) = Outcome.pipeline ["ls"] ["wc", "&"] :=
  ⟨holds_ofList _ (by decide),
   (pipeline_without_redirection (ofList ["ls", "|", "wc", "&"]) ["ls"] ["wc", "&"]
      (holds_ofList _ (by decide)) (by decide) (by decide)).1 (by decide)⟩

/-- C4 fails on the code: `a | b | c` is not rejected; it enters the pipe execution with stage 1
`a` and stage 2 `b | c`, the second pipe token being an ordinary argument. -/
theorem second_pipe_counterexample :
    processLine (fun _ => none) "a | b | c" (fun _ => none)
      = Outcome.pipeline ["a"] ["b", "|", "c"] ∧
    processLine (fun _ => none) "a | b | c" (fun _ => none) ≠ Outcome.pipeError := by
  decide

/-- C4 as amended: for a token vector with more than one pipe token, `c1 ++ | :: c2` with no
pipe token in `c1` and one in `c2`, whose first token is not the empty string (the line passes
the empty-command guard) and in which no redirection operator is followed by a token, the parser
splits at the first pipe token only: it reports the pipe error exactly when no token stands
before that pipe token, and otherwise enters the pipe execution with stage 1 `c1` and stage 2
`c2`, the later pipe tokens being literal arguments of stage 2. -/
theorem second_pipe_is_literal (a : Slots) (c1 c2 : List String)
    (h : Holds a (c1 ++ "|" :: c2)) (hg : (c1 ++ "|" :: c2).head? ≠ some "")
    (h1 : "|" ∉ c1) (h2 : "|" ∈ c2)
    (hno : ∀ t ∈ (c1 ++ "|" :: c2).dropLast, t ≠ "<" ∧ t ≠ ">") :
    handleLine (c1 ++ "|" :: c2).length a
      = if c1 = [] then Outcome.pipeError else Outcome.pipeline c1 c2 := by
  have hgf := guard_false h (by simp) hg
  obtain ⟨r1, -, -, -, r5⟩ := redirScan_noMatch (c1 ++ "|" :: c2).length h hno
  have hh : Holds (redirScan (c1 ++ "|" :: c2).length a).arguments (c1 ++ "|" :: c2) := by
    rw [r1]; exact h
  rw [handleLine_pipe hgf r5 hh h1]
  have hc2 : c2 ≠ [] := by
    intro e
    rw [e] at h2
    simp at h2
  simp [hc2]

/-- Instance: the vector `a | b | c` runs `a` piped into `b` with arguments `|` and `c`. -/
theorem second_pipe_is_literal_witness :
    Holds (ofList ["a", "|", "b", "|", "c"]) (["a"] ++ "|" :: ["b", "|", "c"]) ∧
    handleLine 5 (ofList ["a", "|", "b", "|", "c"]) = Outcome.pipeline ["a"] ["b", "|", "c"] :=
  ⟨holds_ofList _ (by decide),
   second_pipe_is_literal (ofList ["a", "|", "b", "|", "c"]) ["a"] ["b", "|", "c"]
     (holds_ofList _ (by decide)) (by decide) (by decide) (by decide) (by decide)⟩

/-! ## Claims -/

/-- C5: for every environment, line and prior array contents, `tokenize_and_substitute` returns
`n = min (k, 127)` where `k` is the number of maximal non-empty runs of non-delimiter characters
of the line; slots `0 .. n-1` hold, in order, the arguments of the first 127 runs (the run
itself, or for a run beginning with the dollar sign the value of the named variable, or the empty
string when it is unset, kept as an argument); slot `n` holds NULL.  Runs beyond the 127th are
dropped and the function has no failure result. -/
theorem tokenize_and_substitute_contract (getenv : String → Option String)
    (command_line : String) (arguments : Slots) :
    (tokenize_and_substitute getenv command_line arguments).1
        = min (specRuns command_line.data).length 127 ∧
    (List.range (tokenize_and_substitute getenv command_line arguments).1).map
        (tokenize_and_substitute getenv command_line arguments).2
        = ((specRuns command_line.data).take 127).map (fun run => some (specArg getenv run)) ∧
    (tokenize_and_substitute getenv command_line arguments).2
        (tokenize_and_substitute getenv command_line arguments).1 = none := by
  obtain ⟨h1, -, h3, h4⟩ := tokLoop_spec getenv 128 command_line.data 0 arguments
    (by omega) (by omega)
  simp only [Nat.zero_add] at h1 h3
  refine ⟨h1, ?_, h4⟩
  apply List.ext_getElem?
  intro i
  unfold tokenize_and_substitute MAX_COMMAND_LINE_ARGS
  by_cases hi : i < (tokLoop getenv 128 (strtok command_line.data) 0 arguments).1
  · have hk : i < (specRuns command_line.data).length ∧ i < 127 := by
      rw [h1] at hi; omega
    rw [List.getElem?_map, List.getElem?_range hi, List.getElem?_map, List.getElem?_take_of_lt hk.2]
    simp only [Option.map_some']
    rw [h3 i hi, List.getElem?_eq_getElem hk.1]
    simp [substitute_eq_specArg]
  · have hk : (specRuns command_line.data).length ≤ i ∨ 127 ≤ i := by
      rw [h1] at hi; omega
    rw [List.getElem?_eq_none (by simpa using hi), List.getElem?_eq_none]
    simp only [List.length_map, List.length_take]
    omega

/-- C6 fails on the code, by the defect of C10: for the line `cmd < in > out` the redirection
loop matches `<` at index 1, stores `in` as the input path and writes NULL over the operator
(the vector is `cmd`, `exec_arg_count` is 1, the output path is unset), but the scan does not
stop there.  Line 140 sets `i = MAX_COMMAND_LINE_ARGS` without a `break`, so the loop condition
is evaluated once more, at index 129 outside the array, and the handling of the line has no
defined outcome. -/
theorem redirection_scan_does_not_stop (getenv : String → Option String)
    (arguments : Slots) :
    (redirScan (tokenize_and_substitute getenv "cmd < in > out" arguments).1
      (tokenize_and_substitute getenv "cmd < in > out" arguments).2).input_file = some "in" ∧
    (redirScan (tokenize_and_substitute getenv "cmd < in > out" arguments).1
      (tokenize_and_substitute getenv "cmd < in > out" arguments).2).output_file = none ∧
    argv (redirScan (tokenize_and_substitute getenv "cmd < in > out" arguments).1
      (tokenize_and_substitute getenv "cmd < in > out" arguments).2).arguments = ["cmd"] ∧
    (redirScan (tokenize_and_substitute getenv "cmd < in > out" arguments).1
      (tokenize_and_substitute getenv "cmd < in > out" arguments).2).exec_arg_count = 1 ∧
    (redirScan (tokenize_and_substitute getenv "cmd < in > out" arguments).1
      (tokenize_and_substitute getenv "cmd < in > out" arguments).2).reads = [0, 1, 2, 129] ∧
    (redirScan (tokenize_and_substitute getenv "cmd < in > out" arguments).1
      (tokenize_and_substitute getenv "cmd < in > out" arguments).2).overrun = true ∧
    processLine getenv "cmd < in > out" arguments = Outcome.undefined := by
  exact ⟨rfl, rfl, rfl, rfl, rfl, rfl, rfl⟩

/-- C7 fails on the code.  `echo hi &` runs the built-in echo, which prints `hi &` and the
newline: the `&` is neither removed nor taken as a background marker.  `$U x &` with `U` not set
is ignored at line 125 although its vector ends in `&`.  For `prog & > out`, whose
redirection-truncated vector is `prog &`, the scan reads outside the array after the match and
the line has no defined outcome. -/
theorem background_builtin_counterexample :
    processLine (fun _ => none) "echo hi &" (fun _ => none) = Outcome.echo "hi &\n" ∧
    processLine (fun _ => none) "$U x &" (fun _ => none) = Outcome.ignored ∧
    argv (redirScan (tokenize_and_substitute (fun _ => none) "prog & > out" (fun _ => none)).1
      (tokenize_and_substitute (fun _ => none) "prog & > out" (fun _ => none)).2).arguments
      = ["prog", "&"] ∧
    processLine (fun _ => none) "prog & > out" (fun _ => none) = Outcome.undefined := by
  decide

/-- C7 as amended: for every token vector `ts` without a pipe token whose first token is not the
empty string (the line passes the empty-command guard) and in which no redirection operator is
followed by a token (no path is extracted, the vector is not cut).  When the command name is not
a built-in and the last token is `&`, the command is launched as background with `ts` minus that
`&`; when the last token is not `&`, it is launched in the foreground with `ts` unchanged.  When
the command name is a built-in nothing is launched and no background marking takes place: the
`&` stays an argument of the built-in, and echo prints its arguments, a final `&` included,
joined by single spaces (for arguments that are all non-empty). -/
theorem background_marker (a : Slots) (ts : List String) (h : Holds a ts) (h0 : ts ≠ [])
    (hg : ts.head? ≠ some "") (hno : ∀ t ∈ ts.dropLast, t ≠ "<" ∧ t ≠ ">")
    (hp : "|" ∉ ts) :
    (∀ v, ts = v ++ ["&"] → (∀ cmd, (v ++ ["&"]).head? = some cmd → ¬ isBuiltin cmd) →
      handleLine ts.length a = Outcome.external v none none true) ∧
    (∀ cmd, ts.head? = some cmd → ¬ isBuiltin cmd → ts.getLast? ≠ some "&" →
      handleLine ts.length a = Outcome.external ts none none false) ∧
    (∀ cmd, ts.head? = some cmd → isBuiltin cmd →
      ∀ args i o bg, handleLine ts.length a ≠ Outcome.external args i o bg) ∧
    (∀ args, ts = "echo" :: args → (∀ x ∈ args, x ≠ "") →
      handleLine ts.length a = Outcome.echo (String.intercalate " " args ++ "\n")) := by
  have hgf := guard_false h h0 hg
  obtain ⟨r1, r2, r3, r4, r5⟩ := redirScan_noMatch ts.length h hno
  have hh : Holds (redirScan ts.length a).arguments ts := by rw [r1]; exact h
  have hd := handleLine_noPipe hgf r5 hh hp
  refine ⟨?_, ?_, ?_, ?_⟩
  · intro v e hb
    subst e
    rw [hd, dispatch_external_bg hh r4 hb, r2, r3]
  · intro cmd hc hb hl
    rw [hd, dispatch_external_fg hh r4 hc hb hl, r2, r3]
  · intro cmd hc hb
    rw [hd]
    exact dispatch_builtin hh hc hb
  · intro args e hne
    subst e
    exact handleLine_echo hgf r5 hh hne (fun hm => hp (List.mem_cons_of_mem _ hm))

/-- Instance: the vector `sleep 5 &` is launched as background with `sleep 5`. -/
theorem background_marker_witness :
    Holds (ofList ["sleep", "5", "&"]) ["sleep", "5", "&"] ∧
    handleLine 3 (ofList ["sleep", "5", "&"])
      = Outcome.external ["sleep", "5"] none none true :=
  ⟨holds_ofList _ (by decide),
   (background_marker (ofList ["sleep", "5", "&"]) ["sleep", "5", "&"]
      (holds_ofList _ (by decide)) (by decide) (by decide) (by decide) (by decide)).1
      ["sleep", "5"] (by decide) (by decide)⟩

/-- C8: the watchdog state, stepped by the statements of lines 384-401 and by countdown
expiries that may fall anywhere between them, is idle (`fg_pid = -1`, no countdown pending) at
every prompt: after all lines of a session, and before and after each single line, whatever path
handled it.  While a line is handled a countdown is pending only if the line launched a single
external command in the foreground with a successful `fork`, and the handler calls `kill` at most
once during a line, only for such a line and only on the process id of that very command. -/
theorem watchdog_idle_at_prompt (ls : List LineRun) (hv : ∀ l ∈ ls, l.valid)
    (before : List LineRun) (l : LineRun) (after : List LineRun)
    (hsplit : ls = before ++ l :: after) :
    (runLines Watchdog.init ls).idle ∧
    (runLines Watchdog.init before).idle ∧
    (runLines Watchdog.init (before ++ [l])).idle ∧
    (∀ pre post, l.events = pre ++ post →
      (runEvents (runLines Watchdog.init before) pre).pending = true → l.foreground) ∧
    ((runLines Watchdog.init (before ++ [l])).kill_calls
        = (runLines Watchdog.init before).kill_calls ∨
      ((runLines Watchdog.init (before ++ [l])).kill_calls
          = (runLines Watchdog.init before).kill_calls ++ [l.pid] ∧ l.foreground)) := by
  have h0 : Watchdog.init.idle := ⟨rfl, rfl⟩
  have hb : (runLines Watchdog.init before).idle :=
    runLines_idle before _ h0 (fun x hx => hv x (by rw [hsplit]; simp [hx]))
  have hl : l.valid := hv l (by rw [hsplit]; simp)
  obtain ⟨s1, s2, s3⟩ := line_step l _ hl hb
  have e : runLines Watchdog.init (before ++ [l])
      = runEvents (runLines Watchdog.init before) l.events := by
    rw [runLines_append]; rfl
  rw [e]
  exact ⟨runLines_idle ls _ h0 hv, hb, s1, s3, s2⟩

/-- Instance: a session with a foreground command (pid 41) whose countdown expires while the
shell waits, then a background command (pid 42) with a stray expiry.  Only pid 41 is killed and
the watchdog is idle at the end. -/
theorem watchdog_idle_at_prompt_witness :
    (runLines Watchdog.init
      [ { outcome := Outcome.external ["sleep", "20"] none none false, pid := 41,
          events := [Event.stmt (Stmt.set_fg_pid 41), Event.stmt (Stmt.alarm 10), Event.expiry,
            Event.stmt (Stmt.waitpid 41), Event.stmt (Stmt.alarm 0),
            Event.stmt Stmt.reset_fg_pid] },
        { outcome := Outcome.external ["sleep", "20"] none none true, pid := 42,
          events := [Event.expiry] } ]).kill_calls = [41] ∧
    (runLines Watchdog.init
      [ { outcome := Outcome.external ["sleep", "20"] none none false, pid := 41,
          events := [Event.stmt (Stmt.set_fg_pid 41), Event.stmt (Stmt.alarm 10), Event.expiry,
            Event.stmt (Stmt.waitpid 41), Event.stmt (Stmt.alarm 0),
            Event.stmt Stmt.reset_fg_pid] },
        { outcome := Outcome.external ["sleep", "20"] none none true, pid := 42,
          events := [Event.expiry] } ]).idle :=
  ⟨by decide,
   (watchdog_idle_at_prompt
      [ { outcome := Outcome.external ["sleep", "20"] none none false, pid := 41,
          events := [Event.stmt (Stmt.set_fg_pid 41), Event.stmt (Stmt.alarm 10), Event.expiry,
            Event.stmt (Stmt.waitpid 41), Event.stmt (Stmt.alarm 0),
            Event.stmt Stmt.reset_fg_pid] },
        { outcome := Outcome.external ["sleep", "20"] none none true, pid := 42,
          events := [Event.expiry] } ]
      (by
        intro l hl
        simp only [List.mem_cons, List.mem_singleton, List.not_mem_nil, or_false] at hl
        rcases hl with rfl | rfl
        · show stmtsOf _ = watchdogStmts _ _
          decide
        · show stmtsOf _ = watchdogStmts _ _
          decide)
      []
      { outcome := Outcome.external ["sleep", "20"] none none false, pid := 41,
        events := [Event.stmt (Stmt.set_fg_pid 41), Event.stmt (Stmt.alarm 10), Event.expiry,
          Event.stmt (Stmt.waitpid 41), Event.stmt (Stmt.alarm 0),
          Event.stmt Stmt.reset_fg_pid] }
      [ { outcome := Outcome.external ["sleep", "20"] none none true, pid := 42,
          events := [Event.expiry] } ]
      rfl).1⟩

/-- C9 fails on the code: the line `&` passes the empty-command guard, the background check
removes the only token, and `execvp` is entered with an empty vector (first element NULL); the
line `ls | $UNSET` with `UNSET` not set reaches the pipe execution with a second stage whose
first element is the empty string. -/
theorem execvp_first_element_unchecked (getenv : String → Option String) (arguments : Slots) :
    processLine getenv "&" arguments = Outcome.external [] none none true ∧
    processLine (fun _ => none) "ls | $UNSET" arguments = Outcome.pipeline ["ls"] [""] := by
  exact ⟨rfl, rfl⟩

/-- C10 fails on the code: for the line `ls > out` the redirection loop reads `arguments` at the
indices 0, 1, 2 and then, after `i = MAX_COMMAND_LINE_ARGS` and the increment, at index 129,
which lies outside the `MAX_COMMAND_LINE_ARGS` slots of the array. -/
theorem redirection_scan_reads_past_array (getenv : String → Option String)
    (arguments : Slots) :
    (redirScan (tokenize_and_substitute getenv "ls > out" arguments).1
      (tokenize_and_substitute getenv "ls > out" arguments).2).reads = [0, 1, 2, 129] ∧
    MAX_COMMAND_LINE_ARGS ≤ 129 ∧
    readSlot (tokenize_and_substitute getenv "ls > out" arguments).2 129 = none := by
  exact ⟨rfl, by decide, rfl⟩

end Quash
